import Mathlib

/-!
Verification development for the weechat spell-checking scripts
(`spellcheck_tab.py` and `spellcheck.py`).  Python strings are modelled as
lists of characters (Python slices and indices act on code points, matching
list positions), the per-buffer global state dictionaries of
`spellcheck_tab.py` are modelled as a record of optional entries for one
buffer key (every handler touches only the entries of the buffer it is
invoked for), and the external enchant / aspell backends are oracle
parameters.
-/

namespace Weechat

/-- Python strings, as lists of characters. -/
abbrev Str := List Char

/-- Python regex class `\s` (whitespace), also the set stripped by
`str.strip()`. -/
def pySpace (c : Char) : Bool :=
  c == ' ' || c == '\t' || c == '\n' || c == '\r' || c == '\x0b' || c == '\x0c'

/-- Python regex class `\w` (word characters, ASCII fragment). -/
def pyWordChar (c : Char) : Bool :=
  c.isAlphanum || c == '_'

/-! ## `spellcheck_tab.py`: dictionary adapter and `check_word` -/

/-- A per-language dictionary backend as `spellcheck_tab.py` uses it: the
`check` and `suggest` methods of an enchant speller object. -/
structure Speller where
  check : Str → Bool
  suggest : Str → List Str

/-- Semantics of `re.match(r"(^/|https?://|\S+@\S+|\d+)", word)` from `check_word`
(`spellcheck_tab.py` line 70).  `re.match` anchors each alternative at the
start of the word: `^/` is a leading slash, `https?://` a leading
`http://` or `https://`, `\S+@\S+` succeeds exactly when some `@` at
position `i ≥ 1` has only non-space characters before it and a non-space
character after it, and `\d+` is a leading digit. -/
def tabSkipMatch (w : Str) : Bool :=
  w.headD ' ' == '/' ||
  List.isPrefixOf "http://".toList w ||
  List.isPrefixOf "https://".toList w ||
  (List.range w.length).any (fun i =>
    decide (1 ≤ i) && decide (i + 1 < w.length) &&
    (w.take i).all (fun c => !(pySpace c)) &&
    w.getD i ' ' == '@' && !(pySpace (w.getD (i + 1) ' '))) ||
  (w.headD ' ').isDigit

/-- The inner suggestion-collection loop of `check_word`
(`spellcheck_tab.py` lines 86-90): append each suggestion not already
collected, and stop as soon as 5 suggestions have been collected. -/
def addSuggs : List Str → List Str → List Str
  | acc, [] => acc
  | acc, s :: ss =>
    let acc' := if s ∈ acc then acc else acc ++ [s]
    if 5 ≤ acc'.length then acc' else addSuggs acc' ss

/-- The language loop of `check_word` (`spellcheck_tab.py` lines 77-92):
skip languages whose dictionary could not be constructed, stop with
`word_is_correct = true` as soon as a speller accepts the word, otherwise
accumulate (de-duplicated) suggestions, breaking out of the loop once 5
suggestions have been collected. -/
def checkLoop (spell : Str → Option Speller) (word : Str) :
    List Str → List Str → Bool × List Str
  | [], acc => (false, acc)
  | lg :: ls, acc =>
    match spell lg with
    | none => checkLoop spell word ls acc
    | some sp =>
      if sp.check word then (true, acc)
      else
        let acc' := addSuggs acc (sp.suggest word)
        if 5 ≤ acc'.length then (false, acc')
        else checkLoop spell word ls acc'

/-- Model of `get_matching_nicks` (`spellcheck_tab.py` lines 47-63): the names of
nicklist entries of type `"nick"` whose lowercased name starts with the
lowercased word. -/
def get_matching_nicks (nicklist : List (Str × Str)) (word : Str) : List Str :=
  (nicklist.filter (fun e =>
    e.1 == "nick".toList &&
    List.isPrefixOf (word.map Char.toLower) (e.2.map Char.toLower))).map (fun e => e.2)

/-- Model of `check_word` (`spellcheck_tab.py` lines 65-107).  `spell` is the
`get_speller` oracle (`none` when the dictionary for a language cannot be
constructed), `langs` the global `languages` list, `nicklist`/`btype` the
weechat nicklist and `localvar_type` of the buffer, `hasBuffer` whether a
buffer argument was passed.  Returns `none` for correct/ineligible words
and at most five suggestions otherwise. -/
def check_word (spell : Str → Option Speller) (langs : List Str)
    (nicklist : List (Str × Str)) (hasBuffer : Bool) (btype : Str)
    (word : Str) : Option (List Str) :=
  if word.length < 2 || tabSkipMatch word then none
  else
    let r := checkLoop spell word langs []
    if r.1 then none
    else
      let sugg :=
        if hasBuffer && (btype == "channel".toList || btype == "private".toList) then
          get_matching_nicks nicklist word ++ r.2
        else r.2
      if sugg.isEmpty then none else some (sugg.take 5)

/-! ## `spellcheck_tab.py`: tokenizer -/

/-- Model of `find_word_at_cursor` (`spellcheck_tab.py` lines 109-124): clamp the
cursor, take the longest run of non-space characters ending at the cursor
(`re.search(r'(\S+)$', left_text)`), strip a trailing run of `[.,!?]`
(`re.sub(r"[.,!?]+$", "", word)`), and return the stripped word, the start
of the run, and the stripped word's length. -/
def find_word_at_cursor (text : Str) (cursor_pos : Nat) : Option (Str × Nat × Nat) :=
  let left := text.take (min cursor_pos text.length)
  let run := (left.reverse.takeWhile (fun c => !(pySpace c))).reverse
  if run.isEmpty then none
  else
    let word := (run.reverse.dropWhile (fun c => ['.', ',', '!', '?'].contains c)).reverse
    some (word, left.length - run.length, word.length)

/-! ## `spellcheck_tab.py`: per-buffer state and key handlers -/

/-- The five global state dictionaries of `spellcheck_tab.py`
(lines 24-29), restricted to one buffer key: each field is the optional
entry of that buffer in the corresponding dictionary. -/
structure TabState where
  last_suggestions : Option (List Str)
  current_suggestion_index : Option Int
  last_word_position : Option (Nat × Nat × Str)
  original_word : Option Str
  suggestion_active : Option Bool
deriving DecidableEq

/-- The buffer has an entry in none of the five state dictionaries. -/
def emptyState : TabState := ⟨none, none, none, none, none⟩

/-- Outcome of a key callback: the state left behind, the values written to
the buffer's `input` and `input_pos` (if any), whether the key was consumed
(`WEECHAT_RC_OK_EAT`), and whether the callback raised an uncaught
exception (`original_word[buffer_ptr]` on a buffer with no entry). -/
structure KeyResult where
  st : TabState
  text : Option Str
  cursor : Option Nat
  eat : Bool
  err : Bool
deriving DecidableEq

/-- Model of `tab_key_cb` (`spellcheck_tab.py` lines 211-245). -/
def tab_key_cb (st : TabState) (input : Str) : KeyResult :=
  match st.last_suggestions with
  | none => ⟨st, none, none, false, false⟩
  | some suggs =>
    if suggs.isEmpty then ⟨st, none, none, false, false⟩
    else
      let idx0 := st.current_suggestion_index.getD (-1)
      let newIdx : Int := (idx0 + 1) % (suggs.length : Int)
      let st2 : TabState :=
        { st with suggestion_active := some true, current_suggestion_index := some newIdx }
      let chosen := suggs.getD newIdx.toNat []
      match st2.last_word_position with
      | none => ⟨st2, none, none, false, false⟩
      | some (ws, wl, _) =>
        let newInput := input.take ws ++ chosen ++ input.drop (ws + wl)
        match st2.original_word with
        | none => ⟨st2, some newInput, some (ws + chosen.length), false, true⟩
        | some ow =>
          ⟨{ st2 with last_word_position := some (ws, chosen.length, ow) },
            some newInput, some (ws + chosen.length), true, false⟩

/-- Model of `space_key_cb` (`spellcheck_tab.py` lines 247-266). -/
def space_key_cb (st : TabState) (input : Str) : KeyResult :=
  if !(st.suggestion_active.getD false) then ⟨st, none, none, false, false⟩
  else ⟨emptyState, some (input ++ [' ']), some (input.length + 1), true, false⟩

/-- Model of `other_key_cb` (`spellcheck_tab.py` lines 268-278): reset the state if
active; the key always passes through (`WEECHAT_RC_OK`). -/
def other_key_cb (st : TabState) : KeyResult :=
  if !(st.suggestion_active.getD false) then ⟨st, none, none, false, false⟩
  else ⟨emptyState, none, none, false, false⟩

/-! ## `spellcheck_tab.py`: input display modifier -/

/-- External collaborators of `input_modifier_cb`: the speller oracle and
the configured `languages` list, the buffer's nicklist and
`localvar_type`, and the three color escape sequences produced by
`weechat.color` (word color, reset, magenta). -/
structure Ctx where
  spell : Str → Option Speller
  langs : List Str
  nicklist : List (Str × Str)
  btype : Str
  colorW : Str
  colorR : Str
  colorM : Str

/-- The `check_word` call made by `input_modifier_cb` (a buffer argument is
always passed there). -/
def imcCheck (ctx : Ctx) (w : Str) : Option (List Str) :=
  check_word ctx.spell ctx.langs ctx.nicklist true ctx.btype w

/-- The bracket rendering `" [" + ", ".join(pieces) + "]"` (`spellcheck_tab.py` lines 177, 204). -/
def bracketJoin (pieces : List Str) : Str :=
  ' ' :: '[' :: List.intercalate [',', ' '] pieces ++ [']']

/-- The decorated display string of the fresh-word branch of
`input_modifier_cb` (`spellcheck_tab.py` lines 198-209): colorized word and
the bracketed suggestion list, no selected-candidate highlight. -/
def flagged_render (ctx : Ctx) (string w : Str) (cs cl : Nat) (suggs : List Str) : Str :=
  string.take cs ++ ctx.colorW ++ w ++ ctx.colorR ++
    bracketJoin (suggs.take 5) ++ string.drop (cs + cl)

/-- The decorated display string of the active branch of
`input_modifier_cb` (`spellcheck_tab.py` lines 168-182): the original word
colorized, and the suggestion at the current index highlighted in
magenta. -/
def active_render (ctx : Ctx) (string ow : Str) (ws wl : Nat)
    (suggs : List Str) (idx : Int) : Str :=
  string.take ws ++ ctx.colorW ++ ow ++ ctx.colorR ++
    bracketJoin ((suggs.take 5).enum.map
      (fun p => if (p.1 : Int) = idx then ctx.colorM ++ p.2 ++ ctx.colorR else p.2)) ++
    string.drop (ws + wl)

/-- The fresh-word branch of `input_modifier_cb` (`spellcheck_tab.py`
lines 183-209): run `check_word`; with no suggestions clear the buffer's
state and pass the text through, otherwise record the fresh suggestion
state (`active = False`, index `-1`) and render. -/
def imc_fresh (ctx : Ctx) (string w : Str) (cs cl : Nat) : TabState × Str :=
  match imcCheck ctx w with
  | none => (emptyState, string)
  | some suggs =>
    if suggs.isEmpty then (emptyState, string)
    else
      (⟨some suggs, some (-1), some (cs, cl, w), some w, some false⟩,
        flagged_render ctx string w cs cl suggs)

/-- Model of `input_modifier_cb` (`spellcheck_tab.py` lines 126-209): returns the
state left behind for the buffer and the display string. -/
def input_modifier_cb (ctx : Ctx) (st : TabState) (string : Str) (cursor : Nat) :
    TabState × Str :=
  if string.all pySpace then (st, string)
  else
    match find_word_at_cursor string cursor with
    | none => (st, string)
    | some (w, cs, cl) =>
      if w.isEmpty then (st, string)
      else
        let st1 :=
          match st.last_word_position with
          | some (os, ol, _) => if cs != os || cl != ol then emptyState else st
          | none => st
        if st1.suggestion_active.getD false && st1.original_word.isSome &&
            st1.last_suggestions.isSome && st1.last_word_position.isSome then
          let (ws, wl, _) := st1.last_word_position.getD (0, 0, [])
          (st1, active_render ctx string (st1.original_word.getD []) ws wl
            (st1.last_suggestions.getD []) (st1.current_suggestion_index.getD (-1)))
        else
          imc_fresh ctx string w cs cl

/-! ## `spellcheck.py`: guard pipeline and `spellcheck_check_word` -/

/-- Semantics of `re.match(r"^\w+://", word)` (`spellcheck.py` line 192):
`\w+` can only end at the maximal leading run of word characters (a
shorter run would have to be followed by a word character, not `:`), so
the pattern matches exactly when that run is non-empty and is followed by
`://`. -/
def scUrlMatch (w : Str) : Bool :=
  decide (1 ≤ (w.takeWhile pyWordChar).length) &&
  List.isPrefixOf "://".toList (w.drop (w.takeWhile pyWordChar).length)

/-- Semantics of `re.match(r"^[^@]+@[^@]+$", word)` (`spellcheck.py`
line 194): the greedy `[^@]+` runs up to the first `@` (backtracking to a
shorter run would place the literal `@` on a non-`@` character), so the
pattern matches exactly when the first `@` is at a position `≥ 1` and the
non-empty remainder after it contains no further `@`. -/
def scEmailMatch (w : Str) : Bool :=
  decide (1 ≤ (w.takeWhile (fun c => c != '@')).length) &&
  decide ((w.takeWhile (fun c => c != '@')).length < w.length) &&
  !((w.drop ((w.takeWhile (fun c => c != '@')).length + 1)).isEmpty) &&
  (w.drop ((w.takeWhile (fun c => c != '@')).length + 1)).all (fun c => c != '@')

/-- Semantics of `re.match(r"(.*)(P*)$", w)` for a character class `P`
(`spellcheck.py` line 205 with `P = [^\w]`): the regex engine tries the
greedy `.*` from the longest capture downwards and keeps the first split
whose remainder consists only of `P` characters; since the empty remainder
always qualifies, the split found is `(w, [])`. -/
def regexSplitLast (p : Char → Bool) (w : Str) : Str × Str :=
  match (List.range (w.length + 1)).reverse.find? (fun k => (w.drop k).all p) with
  | some k => (w.take k, w.drop k)
  | none => (w, [])

/-- The guard pipeline of `spellcheck_check_word` (`spellcheck.py`
lines 184-216): skip empty/short words, paths, URLs and emails, strip
leading non-word characters (capturing them as the `add_rest` prefix),
apply the line-205 trailing match (whose group 2, the `add_rest` suffix,
is always empty), and skip words that end up empty, short, or made of
digits and non-word characters only.  Returns the captured prefix and
suffix and the word that will be handed to aspell. -/
def sc_guard (word : Str) : Option (Str × Str × Str) :=
  if word.isEmpty || word.length < 2 then none
  else if word.headD ' ' == '/' then none
  else if scUrlMatch word then none
  else if scEmailMatch word then none
  else
    let sPre := word.takeWhile (fun c => !(pyWordChar c))
    let w1 := word.dropWhile (fun c => !(pyWordChar c))
    let w2 := (regexSplitLast (fun c => !(pyWordChar c)) w1).1
    let sSuf := (regexSplitLast (fun c => !(pyWordChar c)) w1).2
    if w2.isEmpty || w2.length < 2 then none
    else if w2.all (fun c => c.isDigit || !(pyWordChar c)) then none
    else some (sPre, sSuf, w2)

/-- The message `"Error: Language dictionary for {lang} not found"` printed by
`aspell_setup` (`spellcheck.py` line 64). -/
def errNotFound (lang : Str) : Str :=
  "Error: Language dictionary for ".toList ++ lang ++ " not found".toList

/-- The message `"Error while setting up aspell for {lang}"` printed by
`spellcheck_check_word` (`spellcheck.py` line 229). -/
def errSetup (lang : Str) : Str :=
  "Error while setting up aspell for ".toList ++ lang

/-- The dictionary-construction loop of `spellcheck_check_word`
(`spellcheck.py` lines 226-230): the first language whose `aspell_setup`
fails, if any. -/
def firstBad (avail : Str → Bool) : List Str → Option Str
  | [] => none
  | lg :: ls => if avail lg then firstBad avail ls else some lg

/-- Model of `aspell_check_word` (`spellcheck.py` lines 76-114): empty or
single-character words are reported correct without consulting aspell;
otherwise the aspell verdict oracle decides. -/
def aspell_check_word (checkO : Str → Str → Bool) (lang w : Str) : Bool :=
  if w.isEmpty || w.length < 2 then true else checkO lang w

/-- The per-language check loop of `spellcheck_check_word` (`spellcheck.py`
lines 233-249): return `none` as soon as some language accepts the word,
otherwise concatenate every language's suggestions (glued into the
`add_rest` prefix/suffix when requested), with no cap and no
de-duplication; an empty total is returned as `some []`. -/
def scLoop (checkO : Str → Str → Bool) (suggO : Str → Str → List Str)
    (w : Str) (glue : Str → Str) : List Str → List Str → Option (List Str)
  | [], acc => some acc
  | lg :: ls, acc =>
    if aspell_check_word checkO lg w then none
    else scLoop checkO suggO w glue ls (acc ++ (suggO lg w).map glue)

/-- Model of `spellcheck_check_word` (`spellcheck.py` lines 182-249).  `avail` is
the `aspell_setup` oracle (dictionary availability), `checkO` and `suggO`
the aspell verdict and suggestion oracles.  Returns the verdict
(`none` = correct, ineligible, or fail-closed; `some` = suggestions) and
the error messages printed. -/
def spellcheck_check_word (avail : Str → Bool) (checkO : Str → Str → Bool)
    (suggO : Str → Str → List Str) (langs word : Str) (add_rest : Bool) :
    Option (List Str) × List Str :=
  match sc_guard word with
  | none => (none, [])
  | some (sPre, sSuf, w) =>
    let langs_list := List.splitOn '+' langs
    match firstBad avail langs_list with
    | some lg => (none, [errNotFound lg, errSetup lg])
    | none =>
      (scLoop checkO suggO w
        (fun s => if add_rest then sPre ++ s ++ sSuf else s) langs_list [], [])

/-! ## Helper lemmas about the advance handler -/

/-- Evaluation of `tab_key_cb` on a buffer that has an entry in all five
state dictionaries and a non-empty suggestion list. -/
theorem tab_key_cb_full (s : List Str) (i : Int) (ws wl : Nat) (pw ow : Str)
    (a : Bool) (input : Str) (hs : s ≠ []) :
    tab_key_cb ⟨some s, some i, some (ws, wl, pw), some ow, some a⟩ input =
      ⟨⟨some s, some ((i + 1) % (s.length : Int)),
        some (ws, (s.getD ((i + 1) % (s.length : Int)).toNat []).length, ow),
        some ow, some true⟩,
        some (input.take ws ++ s.getD ((i + 1) % (s.length : Int)).toNat [] ++
          input.drop (ws + wl)),
        some (ws + (s.getD ((i + 1) % (s.length : Int)).toNat []).length),
        true, false⟩ := by
  cases s with
  | nil => exact absurd rfl hs
  | cons x xs => rfl

/-- One advance key event followed by the input rewrite it performs. -/
def tabStep (p : TabState × Str) : TabState × Str :=
  ((tab_key_cb p.1 p.2).st, (tab_key_cb p.1 p.2).text.getD p.2)

/-- Iteration of `n` consecutive advance key events. -/
def tabIter : Nat → TabState × Str → TabState × Str
  | 0, p => p
  | n + 1, p => tabIter n (tabStep p)

/-- After `k` advance events from a fully populated state with cycle index
`j ∈ [0, N)`, the state is still fully populated and the cycle index is
`(j + k) mod N`. -/
theorem tabIter_index (s : List Str) (hs : s ≠ []) :
    ∀ (k : Nat) (j : Int), 0 ≤ j → j < (s.length : Int) →
    ∀ (ws wl : Nat) (pw ow : Str) (a : Bool) (input : Str),
    ∃ (ws' wl' : Nat) (pw' ow' : Str) (a' : Bool) (input' : Str),
      tabIter k (⟨some s, some j, some (ws, wl, pw), some ow, some a⟩, input) =
        (⟨some s, some ((j + k) % (s.length : Int)), some (ws', wl', pw'),
          some ow', some a'⟩, input') := by
  have hN : 0 < (s.length : Int) := by
    cases s with
    | nil => exact absurd rfl hs
    | cons x xs => exact_mod_cast Nat.succ_pos xs.length
  intro k
  induction k with
  | zero =>
    intro j hj0 hjN ws wl pw ow a input
    refine ⟨ws, wl, pw, ow, a, input, ?_⟩
    simp [tabIter, Int.emod_eq_of_lt hj0 hjN]
  | succ k ih =>
    intro j hj0 hjN ws wl pw ow a input
    have hstep : tabIter (k + 1) (⟨some s, some j, some (ws, wl, pw), some ow, some a⟩, input) =
        tabIter k (tabStep (⟨some s, some j, some (ws, wl, pw), some ow, some a⟩, input)) := rfl
    rw [hstep]
    have hfull := tab_key_cb_full s j ws wl pw ow a input hs
    have hj' : tabStep (⟨some s, some j, some (ws, wl, pw), some ow, some a⟩, input) =
        (⟨some s, some ((j + 1) % (s.length : Int)),
          some (ws, (s.getD ((j + 1) % (s.length : Int)).toNat []).length, ow),
          some ow, some true⟩,
          input.take ws ++ s.getD ((j + 1) % (s.length : Int)).toNat [] ++
            input.drop (ws + wl)) := by
      simp [tabStep, hfull]
    rw [hj']
    obtain ⟨ws', wl', pw', ow', a', input', h⟩ :=
      ih ((j + 1) % (s.length : Int)) (Int.emod_nonneg _ (by omega))
        (Int.emod_lt_of_pos _ hN) ws
        (s.getD ((j + 1) % (s.length : Int)).toNat []).length ow ow true
        (input.take ws ++ s.getD ((j + 1) % (s.length : Int)).toNat [] ++
          input.drop (ws + wl))
    refine ⟨ws', wl', pw', ow', a', input', ?_⟩
    rw [h]
    congr 2
    have : ((j + 1) % (s.length : Int) + (k : Int)) % (s.length : Int) =
        ((j + 1) + (k : Int)) % (s.length : Int) := by
      conv_rhs => rw [Int.add_emod]
      rw [Int.add_emod ((j + 1) % (s.length : Int)) (k : Int), Int.emod_emod_of_dvd]
      exact dvd_refl _
    rw [this]
    push_cast
    ring_nf

/-! ## Claim theorems C1 - C3 -/

/-- C1: an advance (Tab) event on a buffer with no recorded suggestion
state is a no-op that does not consume the key; with state present it sets
`active = true`, stores the cycle index `(previous + 1) mod N` (so the
initial `-1` advances to `0`), and consumes the key; and `N` consecutive
advance events return the cycle index to where it started, in particular to
the first suggestion. -/
theorem tab_advance_cycles (st : TabState) (input : Str) :
    (st = emptyState → tab_key_cb st input = ⟨st, none, none, false, false⟩) ∧
    (∀ s i p w a, st = ⟨some s, some i, some p, some w, some a⟩ → s ≠ [] →
      (tab_key_cb st input).st.suggestion_active = some true ∧
      (tab_key_cb st input).st.current_suggestion_index =
        some ((i + 1) % (s.length : Int)) ∧
      (tab_key_cb st input).eat = true) ∧
    (∀ s i ws wl pw ow a, st = ⟨some s, some i, some (ws, wl, pw), some ow, some a⟩ →
      s ≠ [] → 0 ≤ i → i < (s.length : Int) →
      (tabIter s.length (st, input)).1.current_suggestion_index = some i) := by
  refine ⟨?_, ?_, ?_⟩
  · rintro rfl
    rfl
  · rintro s i ⟨ws, wl, pw⟩ w a rfl hs
    rw [tab_key_cb_full s i ws wl pw w a input hs]
    exact ⟨rfl, rfl, rfl⟩
  · rintro s i ws wl pw ow a rfl hs hi0 hiN
    obtain ⟨ws', wl', pw', ow', a', input', h⟩ :=
      tabIter_index s hs s.length i hi0 hiN ws wl pw ow a input
    rw [h]
    have h2 : ((i + (s.length : Int)) % (s.length : Int)) = i := by
      have h3 := Int.add_mul_emod_self_left (a := i) (b := (s.length : Int)) (c := 1)
      rw [mul_one] at h3
      rw [h3, Int.emod_eq_of_lt hi0 hiN]
    simp [h2]

/-- Witness for C1 at a concrete empty state and a concrete two-suggestion
state: two advance events return the cycle index to the first suggestion. -/
theorem tab_advance_cycles_witness :
    tab_key_cb emptyState [] = ⟨emptyState, none, none, false, false⟩ ∧
    (tabIter 2 (⟨some ["ab".toList, "c".toList], some 0, some (0, 2, "xy".toList),
      some "xy".toList, some true⟩, "xy".toList)).1.current_suggestion_index = some 0 := by
  constructor
  · exact (tab_advance_cycles emptyState []).1 rfl
  · exact (tab_advance_cycles _ "xy".toList).2.2 ["ab".toList, "c".toList] 0 0 2
      "xy".toList "xy".toList true rfl (by decide) (by decide) (by decide)

/-- C2: an advance event on a fully recorded state replaces exactly the
recorded span's character range with the chosen suggestion, puts the cursor
immediately past the inserted text, records the span as (same start,
length of the suggestion) with the stored original word unchanged, and a
subsequent advance therefore replaces exactly the inserted text. -/
theorem tab_advance_splice (st : TabState) (input : Str) (s : List Str) (i : Int)
    (ws wl : Nat) (pw ow : Str) (a : Bool)
    (hst : st = ⟨some s, some i, some (ws, wl, pw), some ow, some a⟩) (hs : s ≠ []) :
    (tab_key_cb st input).text =
      some (input.take ws ++ s.getD ((i + 1) % (s.length : Int)).toNat [] ++
        input.drop (ws + wl)) ∧
    (tab_key_cb st input).cursor =
      some (ws + (s.getD ((i + 1) % (s.length : Int)).toNat []).length) ∧
    (tab_key_cb st input).st.last_word_position =
      some (ws, (s.getD ((i + 1) % (s.length : Int)).toNat []).length, ow) ∧
    (tab_key_cb st input).st.original_word = some ow ∧
    (∀ input', (tab_key_cb st input).text = some input' →
      (tab_key_cb (tab_key_cb st input).st input').text =
        some (input'.take ws ++
          s.getD (((i + 1) % (s.length : Int) + 1) % (s.length : Int)).toNat [] ++
          input'.drop (ws + (s.getD ((i + 1) % (s.length : Int)).toNat []).length))) := by
  subst hst
  rw [tab_key_cb_full s i ws wl pw ow a input hs]
  refine ⟨rfl, rfl, rfl, rfl, ?_⟩
  intro input' h
  have h' : input' = input.take ws ++ s.getD ((i + 1) % (s.length : Int)).toNat [] ++
      input.drop (ws + wl) := by
    injection h with h
    exact h.symm
  subst h'
  rw [tab_key_cb_full s ((i + 1) % (s.length : Int)) ws
    (s.getD ((i + 1) % (s.length : Int)).toNat []).length ow ow true _ hs]

/-- Witness for C2 at the scenario-B state: one advance on `"Helo "` with
suggestions `Hello, Help, Held` inserts `Hello` at span (0,4). -/
theorem tab_advance_splice_witness :
    (tab_key_cb ⟨some ["Hello".toList, "Help".toList, "Held".toList], some (-1),
      some (0, 4, "Helo".toList), some "Helo".toList, some false⟩ "Helo ".toList).text =
      some "Hello ".toList := by
  have h := tab_advance_splice _ "Helo ".toList
    ["Hello".toList, "Help".toList, "Held".toList] (-1) 0 4 "Helo".toList "Helo".toList
    false rfl (by decide)
  rw [h.1]
  decide

/-- C3: a commit (space) event while the state is not active is a no-op
that does not consume the key and changes no state; while active it appends
the separator to the input, moves the cursor past it, clears all per-buffer
state, and consumes the key. -/
theorem space_commit (st : TabState) (input : Str) :
    (st.suggestion_active.getD false = false →
      space_key_cb st input = ⟨st, none, none, false, false⟩) ∧
    (st.suggestion_active.getD false = true →
      space_key_cb st input =
        ⟨emptyState, some (input ++ [' ']), some (input.length + 1), true, false⟩) := by
  unfold space_key_cb
  constructor <;> intro h <;> simp [h]

/-- Witness for C3: an inactive concrete state passes the key through, the
scenario-C active state yields `"Help "` and a cleared state. -/
theorem space_commit_witness :
    space_key_cb emptyState "Helo".toList = ⟨emptyState, none, none, false, false⟩ ∧
    space_key_cb ⟨some ["Hello".toList, "Help".toList, "Held".toList], some 1,
        some (0, 4, "Helo".toList), some "Helo".toList, some true⟩ "Help".toList =
      ⟨emptyState, some "Help ".toList, some 5, true, false⟩ := by
  constructor
  · exact (space_commit emptyState "Helo".toList).1 rfl
  · have h := (space_commit ⟨some ["Hello".toList, "Help".toList, "Held".toList], some 1,
      some (0, 4, "Helo".toList), some "Helo".toList, some true⟩ "Help".toList).2 rfl
    rw [h]
    decide

/-! ## Modifier case analysis, C4 and C10 -/

/-- Each invocation of `input_modifier_cb` either leaves the buffer's state
untouched, or clears it and passes the text through (no suggestions for the
located word), or records a fresh fully-populated non-empty suggestion
state and returns the flagged rendering. -/
theorem imc_cases (ctx : Ctx) (st : TabState) (string : Str) (cursor : Nat) :
    (input_modifier_cb ctx st string cursor).1 = st ∨
    (∃ w cs cl, string.all pySpace = false ∧
      find_word_at_cursor string cursor = some (w, cs, cl) ∧ w.isEmpty = false ∧
      (imcCheck ctx w = none ∨ imcCheck ctx w = some []) ∧
      input_modifier_cb ctx st string cursor = (emptyState, string)) ∨
    (∃ w cs cl suggs, string.all pySpace = false ∧
      find_word_at_cursor string cursor = some (w, cs, cl) ∧ w.isEmpty = false ∧
      imcCheck ctx w = some suggs ∧ suggs ≠ [] ∧
      input_modifier_cb ctx st string cursor =
        (⟨some suggs, some (-1), some (cs, cl, w), some w, some false⟩,
          flagged_render ctx string w cs cl suggs)) := by
  by_cases hA : string.all pySpace = true
  · left
    simp [input_modifier_cb, hA]
  · rw [Bool.not_eq_true] at hA
    rcases Option.eq_none_or_eq_some (find_word_at_cursor string cursor) with
      hF | ⟨⟨w, cs, cl⟩, hF⟩
    · left
      simp [input_modifier_cb, hA, hF]
    · by_cases hw : w.isEmpty = true
      · left
        simp [input_modifier_cb, hA, hF, hw]
      · rw [Bool.not_eq_true] at hw
        have hfresh :
            ((imcCheck ctx w = none ∨ imcCheck ctx w = some []) ∧
              imc_fresh ctx string w cs cl = (emptyState, string)) ∨
            (∃ suggs, imcCheck ctx w = some suggs ∧ suggs ≠ [] ∧
              imc_fresh ctx string w cs cl =
                (⟨some suggs, some (-1), some (cs, cl, w), some w, some false⟩,
                  flagged_render ctx string w cs cl suggs)) := by
          cases hC : imcCheck ctx w with
          | none => exact Or.inl ⟨Or.inl rfl, by simp [imc_fresh, hC]⟩
          | some suggs =>
            cases suggs with
            | nil => exact Or.inl ⟨Or.inr rfl, by simp [imc_fresh, hC]⟩
            | cons x xs =>
              exact Or.inr ⟨x :: xs, rfl, by simp, by simp [imc_fresh, hC]⟩
        have hPick : ∀ h : input_modifier_cb ctx st string cursor =
            imc_fresh ctx string w cs cl,
            (input_modifier_cb ctx st string cursor).1 = st ∨
            (∃ w' cs' cl', string.all pySpace = false ∧
              find_word_at_cursor string cursor = some (w', cs', cl') ∧
              w'.isEmpty = false ∧
              (imcCheck ctx w' = none ∨ imcCheck ctx w' = some []) ∧
              input_modifier_cb ctx st string cursor = (emptyState, string)) ∨
            (∃ w' cs' cl' suggs, string.all pySpace = false ∧
              find_word_at_cursor string cursor = some (w', cs', cl') ∧
              w'.isEmpty = false ∧
              imcCheck ctx w' = some suggs ∧ suggs ≠ [] ∧
              input_modifier_cb ctx st string cursor =
                (⟨some suggs, some (-1), some (cs', cl', w'), some w', some false⟩,
                  flagged_render ctx string w' cs' cl' suggs)) := by
          intro h
          rcases hfresh with ⟨hor, he⟩ | ⟨suggs, hC, hne, he⟩
          · exact Or.inr (Or.inl ⟨w, cs, cl, hA, hF, hw, hor, h.trans he⟩)
          · exact Or.inr (Or.inr ⟨w, cs, cl, suggs, hA, hF, hw, hC, hne, h.trans he⟩)
        rcases hL : st.last_word_position with _ | ⟨os, ol, pw⟩
        · by_cases hB : (st.suggestion_active.getD false && st.original_word.isSome &&
              st.last_suggestions.isSome && st.last_word_position.isSome) = true
          · rw [hL] at hB
            simp at hB
          · rw [Bool.not_eq_true] at hB
            exact hPick (by simp [input_modifier_cb, hA, hF, hw, hL, hB])
        · by_cases hm : (cs != os || cl != ol) = true
          · exact hPick (by simp [input_modifier_cb, hA, hF, hw, hL, hm, emptyState])
          · rw [Bool.not_eq_true] at hm
            by_cases hB : (st.suggestion_active.getD false && st.original_word.isSome &&
                st.last_suggestions.isSome && st.last_word_position.isSome) = true
            · left
              rw [hL] at hB
              simp only [Option.isSome_some, Bool.and_true, Bool.and_eq_true] at hB
              simp [input_modifier_cb, hA, hF, hw, hL, hm, hB.1.1, hB.1.2, hB.2]
            · rw [Bool.not_eq_true] at hB
              refine hPick ?_
              simp only [input_modifier_cb, hA, hF, hw, hL, hm]
              simp only [Bool.false_eq_true, if_false]
              split
              · rename_i hcond
                rw [hL] at hB
                simp only [Option.isSome_some, Bool.and_true] at hB
                rw [hB] at hcond
                exact absurd hcond (by simp)
              · rfl

/-- C4: invoking the redisplay event twice with identical text and cursor
and no intervening key event yields the same display output both times and
the same per-buffer state after the second invocation as after the first
(the second invocation is a fixed point, whatever the starting state). -/
theorem redisplay_idempotent (ctx : Ctx) (st : TabState) (string : Str) (cursor : Nat) :
    input_modifier_cb ctx (input_modifier_cb ctx st string cursor).1 string cursor =
      input_modifier_cb ctx st string cursor := by
  rcases imc_cases ctx st string cursor with h |
    ⟨w, cs, cl, hA, hF, hw, hor, h⟩ | ⟨w, cs, cl, suggs, hA, hF, hw, hC, hne, h⟩
  · rw [h]
  · rw [h]
    rcases hor with hC | hC <;>
      simp [input_modifier_cb, hA, hF, hw, emptyState, imc_fresh, hC]
  · rw [h]
    have hne' : suggs.isEmpty = false := by
      cases suggs with
      | nil => exact absurd rfl hne
      | cons x xs => rfl
    simp [input_modifier_cb, hA, hF, hw, imc_fresh, hC, hne']

/-! ## C10: all-or-none state maps -/

/-- A buffer's state is well formed when it has an entry in either none or
all five of the global state dictionaries, and in the latter case the
stored suggestion list is non-empty. -/
def wellFormed (st : TabState) : Prop :=
  st = emptyState ∨
  ∃ s i p w a, st = ⟨some s, some i, some p, some w, some a⟩ ∧ s ≠ []

/-- C10: every event handler maps a well-formed buffer state to a
well-formed one — the five global maps stay all-or-none populated with a
non-empty stored suggestion list (so the advance handler's modulus is never
zero and its `original_word` lookup never raises). -/
theorem state_maps_all_or_none (ctx : Ctx) (st : TabState) (string : Str)
    (cursor : Nat) (inp1 inp2 : Str) (h : wellFormed st) :
    wellFormed (input_modifier_cb ctx st string cursor).1 ∧
    wellFormed (tab_key_cb st inp1).st ∧ (tab_key_cb st inp1).err = false ∧
    wellFormed (space_key_cb st inp2).st ∧
    wellFormed (other_key_cb st).st := by
  refine ⟨?_, ?_, ?_, ?_, ?_⟩
  · rcases imc_cases ctx st string cursor with h1 |
      ⟨w, cs, cl, _, _, _, _, h1⟩ | ⟨w, cs, cl, suggs, _, _, _, _, hne, h1⟩
    · rw [h1]; exact h
    · rw [h1]; exact Or.inl rfl
    · rw [h1]
      exact Or.inr ⟨suggs, -1, (cs, cl, w), w, false, rfl, hne⟩
  · rcases h with rfl | ⟨s, i, ⟨ws, wl, pw⟩, w, a, rfl, hs⟩
    · exact Or.inl rfl
    · rw [tab_key_cb_full s i ws wl pw w a inp1 hs]
      exact Or.inr ⟨s, _, _, _, _, rfl, hs⟩
  · rcases h with rfl | ⟨s, i, ⟨ws, wl, pw⟩, w, a, rfl, hs⟩
    · rfl
    · rw [tab_key_cb_full s i ws wl pw w a inp1 hs]
  · rcases h with rfl | ⟨s, i, p, w, a, rfl, hs⟩
    · exact Or.inl rfl
    · cases a
      · exact Or.inr ⟨s, i, p, w, false, rfl, hs⟩
      · exact Or.inl rfl
  · rcases h with rfl | ⟨s, i, p, w, a, rfl, hs⟩
    · exact Or.inl rfl
    · cases a
      · exact Or.inr ⟨s, i, p, w, false, rfl, hs⟩
      · exact Or.inl rfl

/-- Witness for C10 at the empty state and concrete inputs. -/
theorem state_maps_all_or_none_witness :
    wellFormed emptyState ∧
    (wellFormed (input_modifier_cb ⟨fun _ => none, [], [], [], [], [], []⟩ emptyState
        "hi".toList 2).1 ∧
      wellFormed (tab_key_cb emptyState "hi".toList).st ∧
      (tab_key_cb emptyState "hi".toList).err = false ∧
      wellFormed (space_key_cb emptyState "hi".toList).st ∧
      wellFormed (other_key_cb emptyState).st) :=
  ⟨Or.inl rfl,
    state_maps_all_or_none ⟨fun _ => none, [], [], [], [], [], []⟩ emptyState
      "hi".toList 2 "hi".toList "hi".toList (Or.inl rfl)⟩

/-! ## C5: acceptance by some configured language -/

/-- If the language loop accepts within a prefix of the language list, the
remaining languages are never consulted. -/
theorem checkLoop_of_fst_true (spell : Str → Option Speller) (word : Str) :
    ∀ (l₁ l₂ acc : List Str), (checkLoop spell word l₁ acc).1 = true →
    checkLoop spell word (l₁ ++ l₂) acc = checkLoop spell word l₁ acc := by
  intro l₁
  induction l₁ with
  | nil => intro l₂ acc h; simp [checkLoop] at h
  | cons lg ls ih =>
    intro l₂ acc h
    cases hsp : spell lg with
    | none =>
      simp only [List.cons_append, checkLoop, hsp] at h ⊢
      exact ih l₂ acc h
    | some sp =>
      simp only [List.cons_append, checkLoop, hsp] at h ⊢
      by_cases hc : sp.check word = true
      · simp [hc]
      · rw [Bool.not_eq_true] at hc
        simp only [hc, Bool.false_eq_true, if_false] at h ⊢
        by_cases hcap : 5 ≤ (addSuggs acc (sp.suggest word)).length
        · rw [if_pos hcap] at h
          simp at h
        · simp only [if_neg hcap] at h ⊢
          exact ih l₂ _ h

/-- If the language loop runs off the end of a prefix without accepting and
without reaching the 5-suggestion cap, processing an extended list picks up
where the prefix left off. -/
theorem checkLoop_append_of (spell : Str → Option Speller) (word : Str) :
    ∀ (l₁ l₂ acc : List Str), (checkLoop spell word l₁ acc).1 = false →
    (checkLoop spell word l₁ acc).2.length < 5 →
    checkLoop spell word (l₁ ++ l₂) acc =
      checkLoop spell word l₂ (checkLoop spell word l₁ acc).2 := by
  intro l₁
  induction l₁ with
  | nil => intro l₂ acc _ _; rfl
  | cons lg ls ih =>
    intro l₂ acc h hlen
    cases hsp : spell lg with
    | none =>
      simp only [List.cons_append, checkLoop, hsp] at h hlen ⊢
      exact ih l₂ acc h hlen
    | some sp =>
      simp only [List.cons_append, checkLoop, hsp] at h hlen ⊢
      by_cases hc : sp.check word = true
      · rw [if_pos hc] at h
        simp at h
      · rw [Bool.not_eq_true] at hc
        simp only [hc, Bool.false_eq_true, if_false] at h hlen ⊢
        by_cases hcap : 5 ≤ (addSuggs acc (sp.suggest word)).length
        · rw [if_pos hcap] at hlen
          simp at hlen
          omega
        · simp only [if_neg hcap] at h hlen ⊢
          exact ih l₂ _ h hlen

/-- A speller oracle where `L2` accepts everything while every other
language rejects and supplies five suggestions. -/
def c5spell : Str → Option Speller := fun lg =>
  match lg with
  | ['L', '2'] => some ⟨fun _ => true, fun _ => []⟩
  | _ => some ⟨fun _ => false,
      fun _ => [['s', '1'], ['s', '2'], ['s', '3'], ['s', '4'], ['s', '5']]⟩

/-- C5 counterexample: with languages `[L1, L2]`, `L2` accepts `helo`, yet
`check_word` returns the five suggestions `L1` produced — the word is
flagged because the loop breaks at the 5-suggestion cap before consulting
`L2`, so acceptance by some language of the set does not make the word
correct. -/
theorem check_word_accept_skipped_cex :
    (∃ lg ∈ (["L1".toList, "L2".toList] : List Str), ∃ sp,
      c5spell lg = some sp ∧ sp.check "helo".toList = true) ∧
    check_word c5spell ["L1".toList, "L2".toList] [] false [] "helo".toList =
      some [['s', '1'], ['s', '2'], ['s', '3'], ['s', '4'], ['s', '5']] := by
  constructor
  · exact ⟨"L2".toList, by simp, ⟨fun _ => true, fun _ => []⟩, rfl, rfl⟩
  · rfl

/-- C5 (amended): if some language of the configured set accepts the word,
`check_word` reports the word correct (no flag, no suggestions, no state),
provided the loop reaches that language — the languages before it must
neither have accepted already (in which case the result is also `none`) nor
have accumulated 5 suggestions, since `check_word` stops consulting further
languages at the cap. -/
theorem check_word_correct_of_accept (spell : Str → Option Speller)
    (nicklist : List (Str × Str)) (hasBuffer : Bool) (btype : Str)
    (l₁ l₂ : List Str) (lg : Str) (sp : Speller) (word : Str)
    (helig : (word.length < 2 || tabSkipMatch word) = false)
    (hsp : spell lg = some sp) (hacc : sp.check word = true)
    (hpre : (checkLoop spell word l₁ []).1 = true ∨
      ((checkLoop spell word l₁ []).1 = false ∧
        (checkLoop spell word l₁ []).2.length < 5)) :
    check_word spell (l₁ ++ lg :: l₂) nicklist hasBuffer btype word = none := by
  unfold check_word
  rw [helig]
  simp only [Bool.false_eq_true, if_false]
  rcases hpre with h1 | ⟨h1, h2⟩
  · rw [checkLoop_of_fst_true spell word l₁ (lg :: l₂) [] h1]
    simp [h1]
  · rw [checkLoop_append_of spell word l₁ (lg :: l₂) [] h1 h2]
    simp [checkLoop, hsp, hacc]

/-- A speller oracle whose single language accepts everything. -/
def c5okSpell : Str → Option Speller := fun _ => some ⟨fun _ => true, fun _ => []⟩

/-- Witness for the amended C5 at a concrete accepting language. -/
theorem check_word_correct_of_accept_witness :
    check_word c5okSpell ["en".toList] [] false [] "helo".toList = none :=
  check_word_correct_of_accept c5okSpell [] false [] [] [] "en".toList
    ⟨fun _ => true, fun _ => []⟩ "helo".toList (by decide) rfl rfl
    (Or.inr ⟨rfl, by decide⟩)

/-! ## C6: shape of the suggestion list -/

/-- What a language contributes to the concatenated suggestion pool:
nothing when its dictionary is unavailable or it accepts the word, its raw
suggestion list otherwise. -/
def langContrib (spell : Str → Option Speller) (word : Str) (lg : Str) : List Str :=
  match spell lg with
  | none => []
  | some sp => if sp.check word then [] else sp.suggest word

/-- Concatenation, in configuration order, of what each language
contributes to the suggestion pool. -/
def poolConcat (spell : Str → Option Speller) (word : Str) : List Str → List Str
  | [] => []
  | lg :: ls => langContrib spell word lg ++ poolConcat spell word ls

/-- The inner collection loop extends a duplicate-free accumulator by a
duplicate-free selection of the incoming suggestions, in order. -/
theorem addSuggs_structure :
    ∀ (s acc : List Str), acc.Nodup →
    ∃ t, addSuggs acc s = acc ++ t ∧ t.Sublist s ∧ (acc ++ t).Nodup := by
  intro s
  induction s with
  | nil =>
    intro acc hnd
    exact ⟨[], by simp [addSuggs], List.nil_sublist [], by simpa using hnd⟩
  | cons x xs ih =>
    intro acc hnd
    by_cases hx : x ∈ acc
    · by_cases hcap : 5 ≤ acc.length
      · refine ⟨[], ?_, List.nil_sublist _, by simpa using hnd⟩
        simp [addSuggs, hx, hcap]
      · obtain ⟨t, ht, hsub, hnodup⟩ := ih acc hnd
        refine ⟨t, ?_, hsub.cons x, hnodup⟩
        simp [addSuggs, hx, hcap, ht]
    · have hnd' : (acc ++ [x]).Nodup := by
        rw [List.nodup_append]
        exact ⟨hnd, List.nodup_singleton x, by simpa using hx⟩
      by_cases hcap : 5 ≤ (acc ++ [x]).length
      · refine ⟨[x], ?_, (List.nil_sublist xs).cons₂ x, hnd'⟩
        simp only [addSuggs, if_neg hx, if_pos hcap]
      · obtain ⟨t, ht, hsub, hnodup⟩ := ih (acc ++ [x]) hnd'
        refine ⟨x :: t, ?_, hsub.cons₂ x, ?_⟩
        · rw [addSuggs]
          simp only [hx, if_false, if_neg hcap]
          rw [ht, List.append_assoc]
          rfl
        · rw [show acc ++ x :: t = (acc ++ [x]) ++ t by simp]
          exact hnodup

/-- The language loop extends a duplicate-free accumulator by a
duplicate-free sublist of the per-language contributions concatenated in
configuration order. -/
theorem checkLoop_structure (spell : Str → Option Speller) (word : Str) :
    ∀ (ls acc : List Str), acc.Nodup →
    ∃ t, (checkLoop spell word ls acc).2 = acc ++ t ∧
      t.Sublist (poolConcat spell word ls) ∧ (acc ++ t).Nodup := by
  intro ls
  induction ls with
  | nil =>
    intro acc hnd
    exact ⟨[], by simp [checkLoop], List.nil_sublist _, by simpa using hnd⟩
  | cons lg ls ih =>
    intro acc hnd
    cases hsp : spell lg with
    | none =>
      obtain ⟨t, ht, hsub, hnodup⟩ := ih acc hnd
      refine ⟨t, ?_, ?_, hnodup⟩
      · simp only [checkLoop, hsp]
        exact ht
      · simp only [poolConcat]
        exact hsub.trans (List.sublist_append_right _ _)
    | some sp =>
      by_cases hc : sp.check word = true
      · refine ⟨[], ?_, List.nil_sublist _, by simpa using hnd⟩
        simp [checkLoop, hsp, hc]
      · rw [Bool.not_eq_true] at hc
        have hcontrib : langContrib spell word lg = sp.suggest word := by
          simp [langContrib, hsp, hc]
        obtain ⟨u, hu, husub, hunodup⟩ := addSuggs_structure (sp.suggest word) acc hnd
        by_cases hcap : 5 ≤ (addSuggs acc (sp.suggest word)).length
        · refine ⟨u, ?_, ?_, hunodup⟩
          · simp only [checkLoop, hsp, hc, Bool.false_eq_true, if_false, if_pos hcap]
            exact hu
          · simp only [poolConcat]
            rw [hcontrib]
            exact husub.trans (List.sublist_append_left _ _)
        · obtain ⟨t, ht, hsub, hnodup⟩ :=
            ih (addSuggs acc (sp.suggest word)) (by rw [hu]; exact hunodup)
          refine ⟨u ++ t, ?_, ?_, ?_⟩
          · simp only [checkLoop, hsp, hc, Bool.false_eq_true, if_false, if_neg hcap]
            rw [ht, hu, List.append_assoc]
          · simp only [poolConcat]
            rw [hcontrib]
            exact List.Sublist.append husub hsub
          · rw [← List.append_assoc, ← hu]
            rw [hu] at ht
            rw [← hu] at ht
            exact ht ▸ hnodup

/-- A speller oracle rejecting everything with the single suggestion
`hello`. -/
def c6spell : Str → Option Speller :=
  fun _ => some ⟨fun _ => false, fun _ => [['h', 'e', 'l', 'l', 'o']]⟩

/-- C6 counterexample: on a channel buffer whose nicklist contains `hello`,
checking `hel` returns `[hello, hello]` — the nickname-prefix match is
prepended without being de-duplicated against the identical dictionary
suggestion, so the returned list is not de-duplicated. -/
theorem check_word_nick_duplicate_cex :
    check_word c6spell ["en".toList] [("nick".toList, "hello".toList)] true
      "channel".toList "hel".toList =
      some [['h', 'e', 'l', 'l', 'o'], ['h', 'e', 'l', 'l', 'o']] ∧
    ¬ ([['h', 'e', 'l', 'l', 'o'], ['h', 'e', 'l', 'l', 'o']] : List Str).Nodup := by
  constructor
  · rfl
  · decide

/-- C6 (amended): every suggestion list `check_word` returns has at most 5
entries and is the 5-capped concatenation of the nickname-prefix matches
(present exactly for channel/private buffers) with a de-duplicated,
first-seen-ordered selection of the per-language dictionary suggestions;
the dictionary part is duplicate-free and order-preserving across tags, but
nickname matches are not de-duplicated against it (and `spellcheck.py`'s
`spellcheck_check_word` applies no cap and no de-duplication at all). -/
theorem check_word_suggestion_structure (spell : Str → Option Speller)
    (langs : List Str) (nicklist : List (Str × Str)) (hasBuffer : Bool)
    (btype : Str) (word : Str) (l : List Str)
    (h : check_word spell langs nicklist hasBuffer btype word = some l) :
    l.length ≤ 5 ∧
    ∃ ds, ds.Nodup ∧ ds.Sublist (poolConcat spell word langs) ∧
      l = ((if hasBuffer && (btype == "channel".toList || btype == "private".toList)
        then get_matching_nicks nicklist word else []) ++ ds).take 5 := by
  unfold check_word at h
  by_cases helig : (word.length < 2 || tabSkipMatch word) = true
  · rw [if_pos helig] at h
    exact absurd h (by simp)
  · rw [if_neg helig] at h
    by_cases hfst : (checkLoop spell word langs []).1 = true
    · rw [if_pos hfst] at h
      exact absurd h (by simp)
    · rw [if_neg hfst] at h
      obtain ⟨t, ht, hsub, hnodup⟩ := checkLoop_structure spell word langs [] List.nodup_nil
      rw [List.nil_append] at ht hnodup
      by_cases hbt : (hasBuffer && (btype == "channel".toList ||
          btype == "private".toList)) = true
      · rw [if_pos hbt] at h
        by_cases hemp : (get_matching_nicks nicklist word ++
            (checkLoop spell word langs []).2).isEmpty = true
        · rw [if_pos hemp] at h
          exact absurd h (by simp)
        · rw [if_neg hemp] at h
          have hl : l = (get_matching_nicks nicklist word ++
              (checkLoop spell word langs []).2).take 5 := by
            injection h with h
            exact h.symm
          refine ⟨?_, t, hnodup, hsub, ?_⟩
          · rw [hl]
            simp [List.length_take]
          · rw [hl, ht, if_pos hbt]
      · rw [if_neg hbt] at h
        by_cases hemp : (checkLoop spell word langs []).2.isEmpty = true
        · rw [if_pos hemp] at h
          exact absurd h (by simp)
        · rw [if_neg hemp] at h
          have hl : l = (checkLoop spell word langs []).2.take 5 := by
            injection h with h
            exact h.symm
          refine ⟨?_, t, hnodup, hsub, ?_⟩
          · rw [hl]
            simp [List.length_take]
          · rw [hl, ht, if_neg hbt, List.nil_append]

/-- A speller oracle rejecting everything with suggestions `aa, bb`. -/
def c6okSpell : Str → Option Speller :=
  fun _ => some ⟨fun _ => false, fun _ => [['a', 'a'], ['b', 'b']]⟩

/-- Witness for the amended C6 at a concrete flagged word. -/
theorem check_word_suggestion_structure_witness :
    check_word c6okSpell ["en".toList] [] false [] "xy".toList =
      some [['a', 'a'], ['b', 'b']] ∧
    ([['a', 'a'], ['b', 'b']] : List Str).length ≤ 5 ∧
    ∃ ds, ds.Nodup ∧
      ds.Sublist (poolConcat c6okSpell "xy".toList ["en".toList]) ∧
      ([['a', 'a'], ['b', 'b']] : List Str) =
        ((if false && (([] : Str) == "channel".toList || ([] : Str) == "private".toList)
          then get_matching_nicks [] "xy".toList else []) ++ ds).take 5 :=
  ⟨rfl, check_word_suggestion_structure c6okSpell ["en".toList] [] false [] "xy".toList
    [['a', 'a'], ['b', 'b']] rfl⟩

/-! ## C7: behaviour on dictionary-construction failure -/

/-- When some language of the list has no available dictionary, the setup
loop stops at the first such language. -/
theorem firstBad_of_exists (avail : Str → Bool) :
    ∀ ls : List Str, (∃ lg ∈ ls, avail lg = false) →
    ∃ lg, firstBad avail ls = some lg ∧ lg ∈ ls ∧ avail lg = false := by
  intro ls
  induction ls with
  | nil => rintro ⟨lg, h, -⟩; exact absurd h (List.not_mem_nil lg)
  | cons lg0 ls ih =>
    rintro ⟨lg, hmem, hav⟩
    by_cases h0 : avail lg0 = true
    · have hne : lg ≠ lg0 := by
        rintro rfl
        rw [h0] at hav
        exact absurd hav (by simp)
      obtain ⟨lg', hfb, hmem', hav'⟩ := ih ⟨lg, by
        rcases List.mem_cons.mp hmem with h | h
        · exact absurd h hne
        · exact h, hav⟩
      exact ⟨lg', by simp [firstBad, h0, hfb], List.mem_cons_of_mem lg0 hmem', hav'⟩
    · rw [Bool.not_eq_true] at h0
      exact ⟨lg0, by simp [firstBad, h0], List.mem_cons_self lg0 ls, h0⟩

/-- A speller oracle where the dictionary for `L1` cannot be constructed
while every other language rejects with the suggestion `hello`. -/
def c7spell : Str → Option Speller := fun lg =>
  match lg with
  | ['L', '1'] => none
  | _ => some ⟨fun _ => false, fun _ => [['h', 'e', 'l', 'l', 'o']]⟩

/-- C7 counterexample: in `spellcheck_tab.py`, dictionary construction
fails for `L1` of the set `[L1, L2]`, yet checking is not abandoned:
`check_word` skips the failed tag, consults `L2`, and flags the word with
its suggestions. -/
theorem check_word_skips_failed_tag_cex :
    c7spell "L1".toList = none ∧
    check_word c7spell ["L1".toList, "L2".toList] [] false [] "helo".toList =
      some [['h', 'e', 'l', 'l', 'o']] :=
  ⟨rfl, rfl⟩

/-- C7 (amended): `spellcheck.py`'s `spellcheck_check_word` does fail
closed — when the dictionary for any tag of the requested set cannot be
constructed, checking of the word is abandoned (result `None`, word neither
flagged nor confirmed correct) and a visible error naming a failed tag is
printed; `spellcheck_tab.py`'s `check_word`, by contrast, skips the failed
tag and keeps checking with the remaining languages. -/
theorem spellcheck_fail_closed (avail : Str → Bool) (checkO : Str → Str → Bool)
    (suggO : Str → Str → List Str) (langs word : Str) (add_rest : Bool)
    (sPre sSuf w : Str) (hg : sc_guard word = some (sPre, sSuf, w))
    (hbad : ∃ lg ∈ List.splitOn '+' langs, avail lg = false) :
    (spellcheck_check_word avail checkO suggO langs word add_rest).1 = none ∧
    ∃ lg, lg ∈ List.splitOn '+' langs ∧ avail lg = false ∧
      errSetup lg ∈ (spellcheck_check_word avail checkO suggO langs word add_rest).2 := by
  obtain ⟨lg, hfb, hmem, hav⟩ := firstBad_of_exists avail (List.splitOn '+' langs) hbad
  unfold spellcheck_check_word
  rw [hg]
  simp only [hfb]
  exact ⟨trivial, lg, hmem, hav, by simp⟩

/-- Witness for the amended C7: requesting `en+xx` when only `xx` has no
dictionary abandons the check and reports the failing tag. -/
theorem spellcheck_fail_closed_witness :
    (spellcheck_check_word (fun lg => !(lg == "xx".toList)) (fun _ _ => false)
      (fun _ _ => []) "en+xx".toList "helo".toList false).1 = none ∧
    ∃ lg, lg ∈ List.splitOn '+' "en+xx".toList ∧
      (fun lg => !(lg == "xx".toList)) lg = false ∧
      errSetup lg ∈ (spellcheck_check_word (fun lg => !(lg == "xx".toList))
        (fun _ _ => false) (fun _ _ => []) "en+xx".toList "helo".toList false).2 :=
  spellcheck_fail_closed (fun lg => !(lg == "xx".toList)) (fun _ _ => false)
    (fun _ _ => []) "en+xx".toList "helo".toList false [] [] "helo".toList
    rfl ⟨"xx".toList, by decide, rfl⟩

/-! ## C8: ineligible tokens -/

/-- The line-205 trailing match strips nothing: the greedy `.*` always
captures the whole word. -/
theorem regexSplitLast_eq (p : Char → Bool) (w : Str) :
    regexSplitLast p w = (w, []) := by
  unfold regexSplitLast
  rw [List.range_succ, List.reverse_append]
  have hall : (w.drop w.length).all p = true := by
    rw [List.drop_length]
    rfl
  simp [List.find?_cons_of_pos, hall, List.take_length, List.drop_length]

/-- Every list splits into the part left of its trailing `p`-run and that
run itself. -/
theorem dropWhile_reverse_decomp (p : Char → Bool) (l : Str) :
    l = (l.reverse.dropWhile p).reverse ++ (l.reverse.takeWhile p).reverse ∧
    ∀ c ∈ (l.reverse.takeWhile p).reverse, p c = true := by
  constructor
  · conv_lhs => rw [← l.reverse_reverse]
    conv_lhs => rw [← List.takeWhile_append_dropWhile (p := p) (l := l.reverse)]
    rw [List.reverse_append]
  · intro c hc
    rw [List.mem_reverse] at hc
    exact List.mem_takeWhile_imp hc

/-- The claim's token normalization: the token with its leading and
trailing runs of non-word characters removed. -/
def specStripBoth (w : Str) : Str :=
  ((w.dropWhile (fun c => !(pyWordChar c))).reverse.dropWhile
    (fun c => !(pyWordChar c))).reverse

/-- A speller oracle rejecting everything with suggestion `zz`. -/
def c8spell : Str → Option Speller :=
  fun _ => some ⟨fun _ => false, fun _ => [['z', 'z']]⟩

/-- C8 counterexample: `ftp://xy` matches the URL-scheme pattern
`^\w+://`, yet `spellcheck_tab.py`'s `check_word` (whose skip regex only
covers `http(s)://`) consults the dictionary and flags it — so for this
checker the token is not unconditionally ineligible. -/
theorem url_scheme_flagged_cex :
    scUrlMatch "ftp://xy".toList = true ∧
    check_word c8spell ["en".toList] [] false [] "ftp://xy".toList =
      some [['z', 'z']] :=
  ⟨rfl, rfl⟩

/-- C8 (amended): in `spellcheck.py`'s `spellcheck_check_word` a token of
length < 2, or starting with `/`, or matching the URL-scheme pattern
`^\w+://`, or matching the single-`@` email pattern, or whose
leading/trailing-stripped core is empty or all digits/non-word characters,
is always ineligible — never flagged, no suggestions, whatever the
dictionary oracles return; `spellcheck_tab.py`'s `check_word` only rejects
length < 2, leading `/`, leading `http://`/`https://`, tokens with an
interior `@`, and leading-digit tokens, so other URL schemes can be
flagged there. -/
theorem spellcheck_ineligible (avail : Str → Bool) (checkO : Str → Str → Bool)
    (suggO : Str → Str → List Str) (langs : Str) (add_rest : Bool) (word : Str)
    (h : word.length < 2 ∨ word.headD ' ' = '/' ∨ scUrlMatch word = true ∨
      scEmailMatch word = true ∨ specStripBoth word = [] ∨
      (specStripBoth word).all (fun c => c.isDigit || !(pyWordChar c)) = true) :
    (spellcheck_check_word avail checkO suggO langs word add_rest).1 = none := by
  suffices hg : sc_guard word = none by
    unfold spellcheck_check_word
    rw [hg]
  unfold sc_guard
  by_cases h1 : (word.isEmpty || decide (word.length < 2)) = true
  · rw [if_pos h1]
  · rw [if_neg h1]
    by_cases h2 : (word.headD ' ' == '/') = true
    · rw [if_pos h2]
    · rw [if_neg h2]
      by_cases h3 : scUrlMatch word = true
      · rw [if_pos h3]
      · rw [if_neg h3]
        by_cases h4 : scEmailMatch word = true
        · rw [if_pos h4]
        · rw [if_neg h4]
          -- all four leading guards failed: the hypothesis must be the
          -- stripped-core condition
          have hcore : specStripBoth word = [] ∨
              (specStripBoth word).all (fun c => c.isDigit || !(pyWordChar c)) = true := by
            rcases h with h | h | h | h | h | h
            · exact absurd h1 (by simp [h])
            · exact absurd (show (word.headD ' ' == '/') = true by rw [h]; rfl) h2
            · exact absurd h3 (by simp [h])
            · exact absurd h4 (by simp [h])
            · exact Or.inl h
            · exact Or.inr h
          simp only [regexSplitLast_eq]
          obtain ⟨hdec, htail⟩ :=
            dropWhile_reverse_decomp (fun c => !(pyWordChar c))
              (word.dropWhile (fun c => !(pyWordChar c)))
          have hall : (word.dropWhile (fun c => !(pyWordChar c))).all
              (fun c => c.isDigit || !(pyWordChar c)) = true := by
            rw [List.all_eq_true]
            intro c hc
            rw [hdec] at hc
            rcases List.mem_append.mp hc with hc | hc
            · rcases hcore with hcore | hcore
              · rw [show ((word.dropWhile (fun c => !(pyWordChar c))).reverse.dropWhile
                    (fun c => !(pyWordChar c))).reverse = specStripBoth word from rfl,
                  hcore] at hc
                exact absurd hc (List.not_mem_nil c)
              · have := (List.all_eq_true.mp hcore) c (by
                  rw [show ((word.dropWhile (fun c => !(pyWordChar c))).reverse.dropWhile
                    (fun c => !(pyWordChar c))).reverse = specStripBoth word from rfl] at hc
                  exact hc)
                exact this
            · have := htail c hc
              simp [this]
          by_cases h5 : ((word.dropWhile (fun c => !(pyWordChar c))).isEmpty ||
              decide ((word.dropWhile (fun c => !(pyWordChar c))).length < 2)) = true
          · rw [if_pos h5]
          · rw [if_neg h5]
            rw [if_pos hall]

/-- Witness for the amended C8 at the token `/cmd`. -/
theorem spellcheck_ineligible_witness :
    (spellcheck_check_word (fun _ => true) (fun _ _ => false) (fun _ _ => [])
      "en".toList "/cmd".toList false).1 = none :=
  spellcheck_ineligible (fun _ => true) (fun _ _ => false) (fun _ _ => [])
    "en".toList false "/cmd".toList (Or.inr (Or.inl (by decide)))

/-! ## C9: the trailing-punctuation strip -/

/-- C9: `spellcheck.py`'s guard pipeline submits `helo.` to the dictionary
with the trailing period still attached — the line-205 strip
`re.match(r"(.*)([^\w]*)$", word)` captures the whole word in group 1 and
removes nothing — whereas the tab script's `find_word_at_cursor` does
return the stripped word `helo` with a span excluding the period. -/
theorem trailing_punct_reaches_dictionary :
    sc_guard "helo.".toList = some ([], [], "helo.".toList) ∧
    find_word_at_cursor "helo.".toList 5 = some ("helo".toList, 0, 4) := by
  constructor
  · rfl
  · rfl

end Weechat
